import Mathlib

/-!
Verification of the nx front-end (lexer and parser).

The development shallowly embeds the Rust sources of the repository:

* `src/nx/src/lexer/token.rs` — `SourceSpan`, `Token`
* `src/nx/src/lexer/lex.rs`   — `tokenize_string`, `tokenize_string_standard`,
  `tokenize_next_word` and its nested helper functions
* `src/nx/src/data/ast.rs`    — `AstNode`, `AstNodeData`, `AstNodeType`
* `src/nx/src/parser/parse.rs` — `parse_token`, `parse_function` and the
  sub-parsers

Rust `&str` values are modelled as `List Char`; `chars().position(p)` is
modelled by `position`, byte slicing by `List.take` / `List.drop`.  The
embedding identifies byte offsets with character offsets, which is exact
for single-byte (ASCII) sources; theorems that quantify over all sources
therefore carry an ASCII hypothesis where the identification matters.
`u32` casts are modelled as `% 4294967296`.
-/

namespace Nx

/-- Span of elements in the source code (token.rs, `SourceSpan`).
The Rust field `end` is a Lean keyword, so it is named `stop` here. -/
structure SourceSpan where
  start : Nat
  stop : Nat
deriving DecidableEq

/-- `SourceSpan::new` (token.rs): the Rust code casts `usize` indices to
`u32`, which truncates modulo 2^32. -/
def SourceSpan.new (start_index : Nat) (end_index : Nat) : SourceSpan :=
  ⟨start_index % 4294967296, end_index % 4294967296⟩

/-- Tokens of the language (token.rs, `Token`).  Lexemes (`&'code str`)
are modelled as `List Char`. -/
inductive Token where
  | Documentation : SourceSpan → List Char → Token
  | Comment : SourceSpan → List Char → Token
  | Semicolon : SourceSpan → List Char → Token
  | Colon : SourceSpan → List Char → Token
  | Comma : SourceSpan → List Char → Token
  | Dot : SourceSpan → List Char → Token
  | Equal : SourceSpan → List Char → Token
  | Plus : SourceSpan → List Char → Token
  | Minus : SourceSpan → List Char → Token
  | Star : SourceSpan → List Char → Token
  | Slash : SourceSpan → List Char → Token
  | LParenthesis : SourceSpan → List Char → Token
  | RParenthesis : SourceSpan → List Char → Token
  | LBracket : SourceSpan → List Char → Token
  | RBracket : SourceSpan → List Char → Token
  | LAngle : SourceSpan → List Char → Token
  | RAngle : SourceSpan → List Char → Token
  | LBrace : SourceSpan → List Char → Token
  | RBrace : SourceSpan → List Char → Token
  | Exclamation : SourceSpan → List Char → Token
  | Question : SourceSpan → List Char → Token
  | Dollar : SourceSpan → List Char → Token
  | Hash : SourceSpan → List Char → Token
  | Use : SourceSpan → List Char → Token
  | Let : SourceSpan → List Char → Token
  | Var : SourceSpan → List Char → Token
  | As : SourceSpan → List Char → Token
  | In : SourceSpan → List Char → Token
  | Return : SourceSpan → List Char → Token
  | Break : SourceSpan → List Char → Token
  | Continue : SourceSpan → List Char → Token
  | Macro : SourceSpan → List Char → Token
  | Module : SourceSpan → List Char → Token
  | Fn : SourceSpan → List Char → Token
  | Struct : SourceSpan → List Char → Token
  | Enum : SourceSpan → List Char → Token
  | Instance : SourceSpan → List Char → Token
  | Implement : SourceSpan → List Char → Token
  | Match : SourceSpan → List Char → Token
  | If : SourceSpan → List Char → Token
  | Else : SourceSpan → List Char → Token
  | For : SourceSpan → List Char → Token
  | While : SourceSpan → List Char → Token
  | Loop : SourceSpan → List Char → Token
  | Unit : SourceSpan → List Char → Token
  | Usize : SourceSpan → List Char → Token
  | Int : SourceSpan → List Char → Token
  | Flt : SourceSpan → List Char → Token
  | Str : SourceSpan → List Char → Token
  | I8 : SourceSpan → List Char → Token
  | U8 : SourceSpan → List Char → Token
  | I16 : SourceSpan → List Char → Token
  | U16 : SourceSpan → List Char → Token
  | I32 : SourceSpan → List Char → Token
  | U32 : SourceSpan → List Char → Token
  | I64 : SourceSpan → List Char → Token
  | U64 : SourceSpan → List Char → Token
  | F32 : SourceSpan → List Char → Token
  | F64 : SourceSpan → List Char → Token
  | IntVal : SourceSpan → List Char → Token
  | FltVal : SourceSpan → List Char → Token
  | StrVal : SourceSpan → List Char → Token
  | IdxVal : SourceSpan → List Char → Token
  | None : Token

/-- `Token::is_none` (generated by `EnumAsInner` in token.rs). -/
def Token.is_none : Token → Bool
  | .None => true
  | _ => false

/-- `Token::into_idx_val` (generated by `EnumAsInner`): succeeds exactly on
the `IdxVal` variant.  The Rust version returns `Result<_, Self>`; only
success versus failure is observable in the parser, so `Option` suffices. -/
def Token.into_idx_val : Token → Option (SourceSpan × List Char)
  | .IdxVal span word => some (span, word)
  | _ => none

/-- The span carried by a token.  Every variant except the `None` sentinel
carries its span as first argument; the sentinel is given the default span.
This projection is used to state span properties; it does not occur in the
embedded code. -/
def Token.span : Token → SourceSpan
  | .Documentation s _ | .Comment s _ | .Semicolon s _ | .Colon s _
  | .Comma s _ | .Dot s _ | .Equal s _ | .Plus s _ | .Minus s _
  | .Star s _ | .Slash s _ | .LParenthesis s _ | .RParenthesis s _
  | .LBracket s _ | .RBracket s _ | .LAngle s _ | .RAngle s _
  | .LBrace s _ | .RBrace s _ | .Exclamation s _ | .Question s _
  | .Dollar s _ | .Hash s _ | .Use s _ | .Let s _ | .Var s _ | .As s _
  | .In s _ | .Return s _ | .Break s _ | .Continue s _ | .Macro s _
  | .Module s _ | .Fn s _ | .Struct s _ | .Enum s _ | .Instance s _
  | .Implement s _ | .Match s _ | .If s _ | .Else s _ | .For s _
  | .While s _ | .Loop s _ | .Unit s _ | .Usize s _ | .Int s _
  | .Flt s _ | .Str s _ | .I8 s _ | .U8 s _ | .I16 s _ | .U16 s _
  | .I32 s _ | .U32 s _ | .I64 s _ | .U64 s _ | .F32 s _ | .F64 s _
  | .IntVal s _ | .FltVal s _ | .StrVal s _ | .IdxVal s _ => s
  | .None => ⟨0, 0⟩

/-- The lexeme carried by a token (the matched source slice); the `None`
sentinel is given the empty lexeme.  Statement-level projection only. -/
def Token.lexeme : Token → List Char
  | .Documentation _ w | .Comment _ w | .Semicolon _ w | .Colon _ w
  | .Comma _ w | .Dot _ w | .Equal _ w | .Plus _ w | .Minus _ w
  | .Star _ w | .Slash _ w | .LParenthesis _ w | .RParenthesis _ w
  | .LBracket _ w | .RBracket _ w | .LAngle _ w | .RAngle _ w
  | .LBrace _ w | .RBrace _ w | .Exclamation _ w | .Question _ w
  | .Dollar _ w | .Hash _ w | .Use _ w | .Let _ w | .Var _ w | .As _ w
  | .In _ w | .Return _ w | .Break _ w | .Continue _ w | .Macro _ w
  | .Module _ w | .Fn _ w | .Struct _ w | .Enum _ w | .Instance _ w
  | .Implement _ w | .Match _ w | .If _ w | .Else _ w | .For _ w
  | .While _ w | .Loop _ w | .Unit _ w | .Usize _ w | .Int _ w
  | .Flt _ w | .Str _ w | .I8 _ w | .U8 _ w | .I16 _ w | .U16 _ w
  | .I32 _ w | .U32 _ w | .I64 _ w | .U64 _ w | .F32 _ w | .F64 _ w
  | .IntVal _ w | .FltVal _ w | .StrVal _ w | .IdxVal _ w => w
  | .None => []

/-- Modelled from the spec: the error module `crate::error` (providing the
`ensure!` macro and its error type) is part of this repository but is not
under src/.  Section 7 of the spec names the error kinds `EmptyInput`,
`UnclassifiableWord` and `TooManyTokens`; the three `ensure!` sites of
lex.rs map to them in that order ("code can not be empty string",
"Token::None was found during lexing.", "can not store more than
max_num_tokens as it may cause memory overflow"). -/
inductive LexError where
  | EmptyInput : LexError
  | UnclassifiableWord : LexError
  | TooManyTokens : LexError
deriving DecidableEq

/-- `character_is_delimiter` (lex.rs): true outside alphanumerics and
underscore. -/
def character_is_delimiter (c : Char) : Bool :=
  if '0' ≤ c ∧ c ≤ '9' then false
  else if 'a' ≤ c ∧ c ≤ 'z' then false
  else if 'A' ≤ c ∧ c ≤ 'Z' then false
  else if c = '_' then false
  else true

/-- `character_is_integer` (lex.rs): digits and underscore. -/
def character_is_integer (c : Char) : Bool :=
  if '0' ≤ c ∧ c ≤ '9' then true
  else if c = '_' then true
  else false

/-- `character_is_identifier` (lex.rs): alphanumerics and underscore. -/
def character_is_identifier (c : Char) : Bool :=
  if '0' ≤ c ∧ c ≤ '9' then true
  else if 'a' ≤ c ∧ c ≤ 'z' then true
  else if 'A' ≤ c ∧ c ≤ 'Z' then true
  else if c = '_' then true
  else false

/-- Rust `Iterator::position`: index of the first element satisfying the
predicate. -/
def position (p : Char → Bool) : List Char → Option Nat
  | [] => none
  | c :: cs => if p c then some 0 else (position p cs).map (fun i => i + 1)

/-- The whitespace characters skipped by the lexer (space, tab, newline).
Statement-level predicate, matching the predicate tested in
`truncate_leading_whitespace`. -/
def isWhitespaceChar (c : Char) : Bool :=
  if c = ' ' ∨ c = '\t' ∨ c = '\n' then true else false

/-- `truncate_leading_whitespace` (lex.rs).  Note the Rust code uses
`position(..).unwrap_or(0)`: when every character is whitespace the
position is `None` and nothing is truncated. -/
def truncate_leading_whitespace (code : List Char) (code_index : Nat) :
    List Char × Nat :=
  let next_non_whitespace_character_index :=
    (position (fun c => !(c = ' ' ∨ c = '\t' ∨ c = '\n')) code).getD 0
  (code.drop next_non_whitespace_character_index,
   code_index + next_non_whitespace_character_index)

/-- `search_next_word` (lex.rs): the word ends at the first delimiter;
if the first character is itself a delimiter the word is that single
character. -/
def search_next_word (code : List Char) (code_index : Nat) :
    List Char × List Char × Nat :=
  let next_delimiter_character_index :=
    (position character_is_delimiter code).getD code.length
  let current_character_is_delimiter := next_delimiter_character_index = 0
  let word :=
    if current_character_is_delimiter then code.take 1
    else code.take next_delimiter_character_index
  (word, code.drop word.length, code_index + word.length)

/-- The reserved-word `match` of `tokenize_next_word` (lex.rs lines
122-192): exact, case-sensitive table of symbols, directives, blocks and
type keywords; anything else is the `None` sentinel. -/
def tokenize_reserved_word (span : SourceSpan) (word : List Char) : Token :=
  if word = [';'] then Token.Semicolon span word
  else if word = [':'] then Token.Colon span word
  else if word = [','] then Token.Comma span word
  else if word = ['.'] then Token.Dot span word
  else if word = ['='] then Token.Equal span word
  else if word = ['+'] then Token.Plus span word
  else if word = ['-'] then Token.Minus span word
  else if word = ['*'] then Token.Star span word
  else if word = ['/'] then Token.Slash span word
  else if word = ['('] then Token.LParenthesis span word
  else if word = [')'] then Token.RParenthesis span word
  else if word = ['['] then Token.LBracket span word
  else if word = [']'] then Token.RBracket span word
  else if word = ['<'] then Token.LAngle span word
  else if word = ['>'] then Token.RAngle span word
  else if word = ['{'] then Token.LBrace span word
  else if word = ['}'] then Token.RBrace span word
  else if word = ['!'] then Token.Exclamation span word
  else if word = ['?'] then Token.Question span word
  else if word = ['$'] then Token.Dollar span word
  else if word = ['#'] then Token.Hash span word
  else if word = ['u', 's', 'e'] then Token.Use span word
  else if word = ['l', 'e', 't'] then Token.Let span word
  else if word = ['v', 'a', 'r'] then Token.Var span word
  else if word = ['a', 's'] then Token.As span word
  else if word = ['i', 'n'] then Token.In span word
  else if word = ['r', 'e', 't', 'u', 'r', 'n'] then Token.Return span word
  else if word = ['b', 'r', 'e', 'a', 'k'] then Token.Break span word
  else if word = ['c', 'o', 'n', 't', 'i', 'n', 'u', 'e'] then Token.Continue span word
  else if word = ['m', 'a', 'c', 'r', 'o'] then Token.Macro span word
  else if word = ['m', 'o', 'd', 'u', 'l', 'e'] then Token.Module span word
  else if word = ['f', 'n'] then Token.Fn span word
  else if word = ['s', 't', 'r', 'u', 'c', 't'] then Token.Struct span word
  else if word = ['e', 'n', 'u', 'm'] then Token.Enum span word
  else if word = ['i', 'n', 's', 't', 'a', 'n', 'c', 'e'] then Token.Instance span word
  else if word = ['i', 'm', 'p', 'l', 'e', 'm', 'e', 'n', 't'] then Token.Implement span word
  else if word = ['m', 'a', 't', 'c', 'h'] then Token.Match span word
  else if word = ['i', 'f'] then Token.If span word
  else if word = ['e', 'l', 's', 'e'] then Token.Else span word
  else if word = ['f', 'o', 'r'] then Token.For span word
  else if word = ['w', 'h', 'i', 'l', 'e'] then Token.While span word
  else if word = ['l', 'o', 'o', 'p'] then Token.Loop span word
  else if word = ['(', ')'] then Token.Unit span word
  else if word = ['u', 's', 'i', 'z', 'e'] then Token.Usize span word
  else if word = ['i', 'n', 't'] then Token.Int span word
  else if word = ['f', 'l', 't'] then Token.Flt span word
  else if word = ['s', 't', 'r'] then Token.Str span word
  else if word = ['i', '8'] then Token.I8 span word
  else if word = ['u', '8'] then Token.U8 span word
  else if word = ['i', '1', '6'] then Token.I16 span word
  else if word = ['u', '1', '6'] then Token.U16 span word
  else if word = ['i', '3', '2'] then Token.I32 span word
  else if word = ['u', '3', '2'] then Token.U32 span word
  else if word = ['i', '6', '4'] then Token.I64 span word
  else if word = ['u', '6', '4'] then Token.U64 span word
  else if word = ['f', '3', '2'] then Token.F32 span word
  else if word = ['f', '6', '4'] then Token.F64 span word
  else Token.None

/-- The classification cascade of `tokenize_next_word` (lex.rs lines
122-230): the reserved-word table first, then the integer-literal test
(all digits or underscore, first character not underscore), then the
identifier test (all alphanumeric or underscore). -/
def classify_word (span : SourceSpan) (word : List Char) : Token :=
  let token := tokenize_reserved_word span word
  let token :=
    if token.is_none then
      if word.head? ≠ some '_' ∧ word.all character_is_integer then
        Token.IntVal span word
      else Token.None
    else token
  let token :=
    if token.is_none then
      if word.all character_is_identifier then Token.IdxVal span word
      else Token.None
    else token
  token

/-- The documentation-comment branch of `tokenize_next_word` (lex.rs lines
88-103): when the word is a slash followed immediately by two more slash
words, consume through end of line. -/
def tokenize_documentation (code : List Char) (code_index : Nat)
    (word remaining_code : List Char) (new_index : Nat) :
    Option (Token × List Char × Nat) :=
  if word = ['/'] then
    let (next_word_1, remaining_code, new_index) :=
      search_next_word remaining_code new_index
    let (next_word_2, remaining_code, _) :=
      search_next_word remaining_code new_index
    if next_word_1 = ['/'] ∧ next_word_2 = ['/'] then
      let next_newline_index :=
        (position (fun c => c = '\n') remaining_code).getD remaining_code.length
      let remaining_truncated_code := remaining_code.drop next_newline_index
      let comment := code.take (next_newline_index + 3)
      let span := SourceSpan.new code_index (code_index + comment.length)
      some (Token.Documentation span comment, remaining_truncated_code, span.stop)
    else none
  else none

/-- The comment branch of `tokenize_next_word` (lex.rs lines 105-119):
when the word is a slash followed immediately by one more slash word,
consume through end of line. -/
def tokenize_comment (code : List Char) (code_index : Nat)
    (word remaining_code : List Char) (new_index : Nat) :
    Option (Token × List Char × Nat) :=
  if word = ['/'] then
    let (next_word, remaining_code, _) :=
      search_next_word remaining_code new_index
    if next_word = ['/'] then
      let next_newline_index :=
        (position (fun c => c = '\n') remaining_code).getD remaining_code.length
      let remaining_truncated_code := remaining_code.drop next_newline_index
      let comment := code.take (next_newline_index + 2)
      let span := SourceSpan.new code_index (code_index + comment.length)
      some (Token.Comment span comment, remaining_truncated_code, span.stop)
    else none
  else none

/-- `tokenize_next_word` (lex.rs): truncate leading whitespace, extract the
next word, try the documentation and comment branches, otherwise classify.
The Rust function returns `Result` but has no error path (it always
returns `Ok`), so the embedding returns the triple directly. -/
def tokenize_next_word (code : List Char) (code_index : Nat) :
    Token × List Char × Nat :=
  let (code, code_index) := truncate_leading_whitespace code code_index
  let (word, remaining_code, new_index) := search_next_word code code_index
  let span := SourceSpan.new code_index (code_index + word.length)
  match tokenize_documentation code code_index word remaining_code new_index with
  | some result => result
  | none =>
    match tokenize_comment code code_index word remaining_code new_index with
    | some result => result
    | none =>
      let token := classify_word span word
      (token, remaining_code, span.stop)

/-- The `while !code.is_empty()` loop of `tokenize_string_standard`
(lex.rs lines 50-66).  The loop terminates because every iteration
consumes at least one character; `fuel` is an upper bound on the number of
iterations, `code.length` at the top-level call.  The zero-fuel branch is
unreachable for `fuel ≥ code.length` (theorem
`tokenize_loop_fuel_irrelevant` below); its value is chosen as the same
error the sentinel check raises. -/
def tokenize_loop (fuel : Nat) (code : List Char) (code_index : Nat)
    (tokens : List Token) (max_num_tokens : Nat) :
    Except LexError (List Token) :=
  match fuel, code with
  | _, [] => .ok tokens
  | 0, _ :: _ => .error LexError.UnclassifiableWord
  | fuel + 1, code =>
    let (token, remaining_code, new_code_index) := tokenize_next_word code code_index
    if token.is_none then .error LexError.UnclassifiableWord
    else if tokens.length < max_num_tokens then
      tokenize_loop fuel remaining_code new_code_index (tokens ++ [token])
        max_num_tokens
    else .error LexError.TooManyTokens

/-- `tokenize_string_standard` (lex.rs): reject empty input, clear the
caller-supplied buffer, compute the capacity heuristic and the defensive
cap, then run the loop.  `tokens.reserve` only affects capacity, which a
`List` does not model; it has no effect on the value. -/
def tokenize_string_standard (code : List Char) (tokens : List Token) :
    Except LexError (List Token) :=
  if code.isEmpty then .error LexError.EmptyInput
  else
    let tokens : List Token := []
    let num_lines := (code.filter (fun c => c = '\n')).length
    let guess_num_tokens_per_line := 20
    let guess_num_tokens := (num_lines + 1) * guess_num_tokens_per_line
    let max_num_tokens := guess_num_tokens * 5
    tokenize_loop code.length code 0 tokens max_num_tokens

/-- `tokenize_string` (lex.rs): tokenize with a fresh empty buffer. -/
def tokenize_string (code : List Char) : Except LexError (List Token) :=
  tokenize_string_standard code []

/-- `AstNodeType` (ast.rs): the semantic-type placeholder; its only variant
is the default `None`. -/
inductive AstNodeType where
  | None : AstNodeType
deriving DecidableEq

/-- `AstNodeData` (ast.rs): a span plus the (unused) semantic type. -/
structure AstNodeData where
  span : SourceSpan
  type_ : AstNodeType
deriving DecidableEq

/-- The `Default` instance of `AstNodeData` (derived in ast.rs): default
span and default type. -/
def AstNodeData.default : AstNodeData :=
  ⟨⟨0, 0⟩, AstNodeType.None⟩

/-- `AstNode` (ast.rs). -/
inductive AstNode where
  | Visible : AstNodeData → AstNode
  | Invisible : AstNodeData → AstNode
  | Unit : AstNodeData → AstNode
  | Usize : AstNodeData → AstNode
  | Int : AstNodeData → AstNode
  | Flt : AstNodeData → AstNode
  | Str : AstNodeData → AstNode
  | Integer : AstNodeData → AstNode
  | Float : AstNodeData → AstNode
  | String : AstNodeData → AstNode
  | Identifier : AstNodeData → AstNode
  | StartFunction : AstNodeData → AstNode
  | EndFunction : AstNodeData → AstNode
  | StartStatement : AstNodeData → AstNode
  | EndStatement : AstNodeData → AstNode
  | StartExpression : AstNodeData → AstNode
  | EndExpression : AstNodeData → AstNode
  | None : AstNode

/-- Modelled from the spec: structured parse errors surfaced through the
`crate::error` module, which is not under src/.  The only `ensure!` site
of parse.rs ("can not parse an empty token list") is the spec's
`EmptyInput` error kind. -/
inductive ParseError where
  | EmptyInput : ParseError
deriving DecidableEq

/-- The two failure modes of the parser: a structured error returned
through `Result` (`err`), and a process-fatal `.unwrap()` panic
(`fault`).  Rust panics abort the call, so both are modelled as the error
side of `Except`. -/
inductive ParseFailure where
  | err : ParseError → ParseFailure
  | fault : ParseFailure
deriving DecidableEq

/-- `parse_visibility` (parse.rs): visibility syntax is unimplemented; it
unconditionally emits `Invisible` and advances the cursor by one. -/
def parse_visibility (ast : List AstNode) (_tokens : List Token)
    (token_index : Nat) : Except ParseFailure (List AstNode × Nat) :=
  let visibility := AstNode.Invisible AstNodeData.default
  let next_token_index := token_index + 1
  .ok (ast ++ [visibility], next_token_index)

/-- `parse_identifier` (parse.rs): `tokens.get(token_index).unwrap()`
panics when the index is out of range, and `.into_idx_val().unwrap()`
panics when the token is not an `IdxVal`; both are the `fault` outcome. -/
def parse_identifier (ast : List AstNode) (tokens : List Token)
    (token_index : Nat) : Except ParseFailure (List AstNode × Nat) :=
  match tokens.get? token_index with
  | none => .error ParseFailure.fault
  | some identifier_token =>
    let next_token_index := token_index + 1
    match identifier_token.into_idx_val with
    | none => .error ParseFailure.fault
    | some (span, _) =>
      let identifier := AstNode.Identifier ⟨span, AstNodeType.None⟩
      .ok (ast ++ [identifier], next_token_index)

/-- `parse_argument` (parse.rs): placeholder, consumes no tokens. -/
def parse_argument (ast : List AstNode) (_tokens : List Token)
    (token_index : Nat) : Except ParseFailure (List AstNode × Nat) :=
  .ok (ast ++ [AstNode.None], token_index)

/-- `parse_type` (parse.rs): placeholder, consumes no tokens. -/
def parse_type (ast : List AstNode) (_tokens : List Token)
    (token_index : Nat) : Except ParseFailure (List AstNode × Nat) :=
  .ok (ast ++ [AstNode.None], token_index)

/-- `parse_block` (parse.rs): placeholder, consumes no tokens. -/
def parse_block (ast : List AstNode) (_tokens : List Token)
    (token_index : Nat) : Except ParseFailure (List AstNode × Nat) :=
  .ok (ast ++ [AstNode.None], token_index)

/-- `parse_function` (parse.rs): bracket with `StartFunction` and
`EndFunction` around visibility, identifier and the three placeholder
sub-parsers. -/
def parse_function (ast : List AstNode) (tokens : List Token)
    (token_index : Nat) : Except ParseFailure (List AstNode × Nat) := do
  let ast := ast ++ [AstNode.StartFunction AstNodeData.default]
  let (ast, next_token_index) ← parse_visibility ast tokens token_index
  let (ast, next_token_index) ← parse_identifier ast tokens next_token_index
  let (ast, next_token_index) ← parse_argument ast tokens next_token_index
  let (ast, next_token_index) ← parse_type ast tokens next_token_index
  let (ast, next_token_index) ← parse_block ast tokens next_token_index
  let ast := ast ++ [AstNode.EndFunction AstNodeData.default]
  .ok (ast, next_token_index)

/-- The `while token_index < tokens.len()` loop of `parse_token`
(parse.rs lines 28-47): a `Fn` token triggers `parse_function`, whose
nodes are stored into `ast` and whose working buffer is then cleared
(`store_into_ast!`); any other token clears the working buffer and
advances by one.  The loop terminates because the cursor strictly
increases; `fuel` bounds the number of iterations, `tokens.length` at the
top-level call, making the zero-fuel branch unreachable (theorem
`parse_loop_fuel_irrelevant` below). -/
def parse_loop (fuel : Nat) (tokens : List Token) (token_index : Nat)
    (xast ast : List AstNode) : Except ParseFailure (List AstNode) :=
  if token_index < tokens.length then
    match fuel with
    | 0 => .error ParseFailure.fault
    | fuel + 1 =>
      match tokens.get? token_index with
      | some (Token.Fn _ _) => do
        let (new_xast, next_token_index) ← parse_function xast tokens token_index
        parse_loop fuel tokens next_token_index [] (ast ++ new_xast)
      | _ => parse_loop fuel tokens (token_index + 1) [] ast
  else .ok ast

/-- `parse_token` (parse.rs), exposing the internally built `ast`
sequence (the Rust function builds it, `dbg!`s it and returns `Ok(())`;
this is the value of the internal buffer at return). -/
def parse_token_ast (tokens : List Token) : Except ParseFailure (List AstNode) :=
  if tokens.isEmpty then .error (ParseFailure.err ParseError.EmptyInput)
  else parse_loop tokens.length tokens 0 [] []

/-- `parse_token` (parse.rs) with its actual Rust signature
`Result<()>`: the built sequence is discarded. -/
def parse_token (tokens : List Token) : Except ParseFailure Unit :=
  (parse_token_ast tokens).map (fun _ => ())

/-- Statement-level checker for the span/reconstruction property of a
token sequence against a source: starting from `pos`, each token's span
lies after `pos`, is non-empty and within bounds, the characters skipped
between `pos` and the span are all whitespace, the token's lexeme is
exactly the source slice at its span, and the remaining tokens cover the
rest, ending exactly at the end of the source.  `spans_reconstruct code 0
ts = true` states that the spans are monotonically increasing and
non-overlapping, gaps are whitespace-only, and concatenating the span
slices with the skipped whitespace restored rebuilds `code`. -/
def spans_reconstruct (code : List Char) : Nat → List Token → Bool
  | pos, [] => pos = code.length
  | pos, t :: ts =>
    let s := t.span.start
    let e := t.span.stop
    decide (pos ≤ s) && decide (s < e) && decide (e ≤ code.length)
      && ((code.drop pos).take (s - pos)).all isWhitespaceChar
      && decide (t.lexeme = (code.drop s).take (e - s))
      && spans_reconstruct code e ts

/-! ## Helper lemmas about `position` -/

theorem position_none_all (p : Char → Bool) :
    ∀ l : List Char, position p l = none → ∀ c ∈ l, p c = false := by
  intro l
  induction l with
  | nil =>
    intro _ c hc
    cases hc
  | cons a as ih =>
    intro h c hc
    by_cases hp : p a = true
    · rw [position, if_pos hp] at h
      cases h
    · rw [position, if_neg hp] at h
      have has : position p as = none := by
        cases hpos : position p as with
        | none => rfl
        | some i =>
          rw [hpos] at h
          cases h
      rcases List.mem_cons.mp hc with rfl | hc2
      · simpa using hp
      · exact ih has c hc2

theorem position_some_lt (p : Char → Bool) :
    ∀ l : List Char, ∀ i, position p l = some i → i < l.length := by
  intro l
  induction l with
  | nil =>
    intro i h
    cases h
  | cons a as ih =>
    intro i h
    by_cases hp : p a = true
    · rw [position, if_pos hp] at h
      cases h
      simp
    · rw [position, if_neg hp] at h
      cases hpos : position p as with
      | none =>
        rw [hpos] at h
        cases h
      | some j =>
        rw [hpos] at h
        simp only [Option.map_some'] at h
        cases h
        have := ih j hpos
        simp
        omega

theorem position_some_take (p : Char → Bool) :
    ∀ l : List Char, ∀ i, position p l = some i → ∀ c ∈ l.take i, p c = false := by
  intro l
  induction l with
  | nil =>
    intro i _ c hc
    simp at hc
  | cons a as ih =>
    intro i h c hc
    by_cases hp : p a = true
    · rw [position, if_pos hp] at h
      cases h
      simp at hc
    · rw [position, if_neg hp] at h
      cases hpos : position p as with
      | none =>
        rw [hpos] at h
        cases h
      | some j =>
        rw [hpos] at h
        simp only [Option.map_some'] at h
        cases h
        rw [List.take_succ_cons] at hc
        rcases List.mem_cons.mp hc with rfl | hc2
        · simpa using hp
        · exact ih j hpos c hc2

/-! ## Helper lemmas about the character classes -/

theorem not_delimiter_iff_identifier (c : Char) :
    character_is_delimiter c = false ↔ character_is_identifier c = true := by
  unfold character_is_delimiter character_is_identifier
  split_ifs <;> simp

theorem whitespace_of_not_nonws (c : Char)
    (h : (!(decide (c = ' ' ∨ c = '\t' ∨ c = '\n'))) = false) :
    isWhitespaceChar c = true := by
  have hd : decide (c = ' ' ∨ c = '\t' ∨ c = '\n') = true := by
    cases hdd : decide (c = ' ' ∨ c = '\t' ∨ c = '\n') with
    | true => rfl
    | false =>
      rw [hdd] at h
      cases h
  unfold isWhitespaceChar
  simp [of_decide_eq_true hd]

/-! ## Characterization of the word-search helpers -/

theorem truncate_spec (code : List Char) (idx : Nat) :
    ∃ w, w ≤ code.length ∧ (w = 0 ∨ w < code.length) ∧
      truncate_leading_whitespace code idx = (code.drop w, idx + w) ∧
      ∀ c ∈ code.take w, isWhitespaceChar c = true := by
  unfold truncate_leading_whitespace
  cases hpos : position (fun c => !(c = ' ' ∨ c = '\t' ∨ c = '\n')) code with
  | none =>
    refine ⟨0, Nat.zero_le _, Or.inl rfl, ?_, ?_⟩
    · simp [hpos]
    · simp
  | some i =>
    have hlt := position_some_lt _ _ _ hpos
    refine ⟨i, Nat.le_of_lt hlt, Or.inr hlt, ?_, ?_⟩
    · simp [hpos]
    · intro c hc
      exact whitespace_of_not_nonws c (position_some_take _ _ _ hpos c hc)

theorem search_spec (code : List Char) (idx : Nat) (h : code ≠ []) :
    ∃ n, 0 < n ∧ n ≤ code.length ∧
      search_next_word code idx = (code.take n, code.drop n, idx + n) ∧
      (n = 1 ∨ ∀ c ∈ code.take n, character_is_delimiter c = false) := by
  have hlen : 0 < code.length := List.length_pos.mpr h
  unfold search_next_word
  cases hpos : position character_is_delimiter code with
  | none =>
    have h0 : ¬ (code.length = 0) := by omega
    refine ⟨code.length, hlen, le_refl _, ?_, Or.inr ?_⟩
    · simp [hpos, h0]
    · intro c hc
      exact position_none_all _ _ hpos c (by simpa using hc)
  | some i =>
    by_cases hi : i = 0
    · subst hi
      refine ⟨1, one_pos, hlen, ?_, Or.inl rfl⟩
      have hlt : (code.take 1).length = 1 := by
        rw [List.length_take]
        omega
      simp [hpos, hlt]
    · have hlt := position_some_lt _ _ _ hpos
      have hwl : (code.take i).length = i := by
        rw [List.length_take]
        omega
      refine ⟨i, Nat.pos_of_ne_zero hi, Nat.le_of_lt hlt, ?_, Or.inr ?_⟩
      · simp [hpos, hi, hwl]
      · exact position_some_take _ _ _ hpos

theorem search_slash (code : List Char) (idx : Nat) (word rest : List Char)
    (ni : Nat) (h : search_next_word code idx = (word, rest, ni))
    (hw : word = ['/']) :
    code.take 1 = ['/'] ∧ rest = code.drop 1 ∧ ni = idx + 1 := by
  cases code with
  | nil =>
    rw [show search_next_word [] idx = ([], [], idx) from rfl] at h
    cases h
    cases hw
  | cons c cs =>
    obtain ⟨n, hn0, hnle, hs, hdisj⟩ := search_spec (c :: cs) idx (by simp)
    rw [hs] at h
    injection h with h1 h23
    injection h23 with h2 h3
    have hn1 : n = 1 := by
      rcases hdisj with hd | hd
      · exact hd
      · exfalso
        have hmem : '/' ∈ (c :: cs).take n := by
          rw [h1, hw]
          simp
        exact absurd (hd '/' hmem) (by decide)
    subst hn1
    exact ⟨h1.trans hw, h2.symm, h3.symm⟩

/-! ## Characterization of word classification -/

theorem is_none_false_iff (t : Token) : t.is_none = false ↔ t ≠ Token.None := by
  cases t <;> simp [Token.is_none]

/-- Shape of every classification result: either the `None` sentinel, or a
token carrying exactly the given span and word. -/
abbrev TokenShape (span : SourceSpan) (word : List Char) (t : Token) : Prop :=
  t = Token.None ∨ (t.is_none = false ∧ t.span = span ∧ t.lexeme = word)

theorem TokenShape.ite_closed (span : SourceSpan) (word : List Char)
    (P : Prop) [Decidable P] (a b : Token)
    (ha : TokenShape span word a) (hb : TokenShape span word b) :
    TokenShape span word (if P then a else b) := by
  by_cases h : P
  · rw [if_pos h]
    exact ha
  · rw [if_neg h]
    exact hb

set_option maxHeartbeats 1600000 in
theorem tokenize_reserved_word_shape (span : SourceSpan) (word : List Char) :
    TokenShape span word (tokenize_reserved_word span word) := by
  unfold tokenize_reserved_word
  repeat' apply TokenShape.ite_closed
  all_goals first
    | exact Or.inl rfl
    | exact Or.inr ⟨rfl, rfl, rfl⟩

theorem classify_word_shape (span : SourceSpan) (word : List Char) :
    TokenShape span word (classify_word span word) := by
  have hshape := tokenize_reserved_word_shape span word
  unfold classify_word
  dsimp only
  rcases hshape with h | ⟨h1, h2, h3⟩
  · rw [h]
    rw [if_pos (show Token.None.is_none = true from rfl)]
    by_cases hint : word.head? ≠ some '_' ∧ word.all character_is_integer = true
    · rw [if_pos hint]
      rw [if_neg (show ¬((Token.IntVal span word).is_none = true) from
        fun hh => Bool.false_ne_true hh)]
      exact Or.inr ⟨rfl, rfl, rfl⟩
    · rw [if_neg hint]
      rw [if_pos (show Token.None.is_none = true from rfl)]
      by_cases hid : word.all character_is_identifier = true
      · rw [if_pos hid]
        exact Or.inr ⟨rfl, rfl, rfl⟩
      · rw [if_neg hid]
        exact Or.inl rfl
  · have hcond : ¬((tokenize_reserved_word span word).is_none = true) := by
      rw [h1]
      exact Bool.false_ne_true
    rw [if_neg hcond]
    rw [if_neg hcond]
    exact Or.inr ⟨h1, h2, h3⟩

theorem classify_word_identifier_not_none (span : SourceSpan) (word : List Char)
    (h : word.all character_is_identifier = true) :
    classify_word span word ≠ Token.None := by
  have hshape := tokenize_reserved_word_shape span word
  unfold classify_word
  dsimp only
  rcases hshape with hr | ⟨h1, _, _⟩
  · rw [hr]
    rw [if_pos (show Token.None.is_none = true from rfl)]
    by_cases hint : word.head? ≠ some '_' ∧ word.all character_is_integer = true
    · rw [if_pos hint]
      rw [if_neg (show ¬((Token.IntVal span word).is_none = true) from
        fun hh => Bool.false_ne_true hh)]
      intro hh
      cases hh
    · rw [if_neg hint]
      rw [if_pos (show Token.None.is_none = true from rfl)]
      rw [if_pos h]
      intro hh
      cases hh
  · have hcond : ¬((tokenize_reserved_word span word).is_none = true) := by
      rw [h1]
      exact Bool.false_ne_true
    rw [if_neg hcond]
    rw [if_neg hcond]
    exact (is_none_false_iff _).mp h1

/-! ## Characterization of the comment branches -/

theorem tokenize_documentation_some (code : List Char) (idx : Nat)
    (word rem : List Char) (ni : Nat) (t : Token) (rem2 : List Char) (ni2 : Nat)
    (h : tokenize_documentation code idx word rem ni = some (t, rem2, ni2)) :
    word = ['/'] ∧
    ∃ nl, nl + 2 ≤ rem.length ∧
      t = Token.Documentation
            (SourceSpan.new idx (idx + (code.take (nl + 3)).length))
            (code.take (nl + 3)) ∧
      rem2 = rem.drop (nl + 2) ∧
      ni2 = (idx + (code.take (nl + 3)).length) % 4294967296 := by
  unfold tokenize_documentation at h
  by_cases hw : word = ['/']
  · rw [if_pos hw] at h
    refine ⟨hw, ?_⟩
    rcases hs1 : search_next_word rem ni with ⟨w1, r1, n1⟩
    rw [hs1] at h
    dsimp only at h
    rcases hs2 : search_next_word r1 n1 with ⟨w2, r2, n2⟩
    rw [hs2] at h
    dsimp only at h
    by_cases hww : w1 = ['/'] ∧ w2 = ['/']
    · rw [if_pos hww] at h
      obtain ⟨ht1, hr1, hn1⟩ := search_slash rem ni w1 r1 n1 hs1 hww.1
      obtain ⟨ht2, hr2, hn2⟩ := search_slash r1 n1 w2 r2 n2 hs2 hww.2
      have hrem1 : rem ≠ [] := by
        intro he
        rw [he] at ht1
        cases ht1
      have hrem2 : r1 ≠ [] := by
        intro he
        rw [he] at ht2
        cases ht2
      have hlen1 : 1 ≤ rem.length := List.length_pos.mpr hrem1
      have hlen2 : 1 ≤ r1.length := List.length_pos.mpr hrem2
      have hr1len : r1.length = rem.length - 1 := by
        rw [hr1, List.length_drop]
      injection h with hpair
      injection hpair with h1 h23
      injection h23 with h2 h3
      set nl := (position (fun c => decide (c = '\n')) r2).getD r2.length with hnl
      clear_value nl
      have hnl_le : nl ≤ r2.length := by
        rw [hnl]
        cases hpos : position (fun c => decide (c = '\n')) r2 with
        | none => simp
        | some i =>
          simp only [Option.getD_some]
          exact Nat.le_of_lt (position_some_lt _ _ _ hpos)
      have hr2len : r2.length = rem.length - 2 := by
        rw [hr2, hr1, List.length_drop, List.length_drop]
        omega
      have hrlen2 : 2 ≤ rem.length := by omega
      refine ⟨nl, by omega, ?_, ?_, ?_⟩
      · rw [← h1]
      · rw [← h2, hr2, hr1, List.drop_drop, List.drop_drop]
        congr 1
        omega
      · rw [← h3]
        rfl
    · rw [if_neg hww] at h
      cases h
  · rw [if_neg hw] at h
    cases h

theorem tokenize_comment_some (code : List Char) (idx : Nat)
    (word rem : List Char) (ni : Nat) (t : Token) (rem2 : List Char) (ni2 : Nat)
    (h : tokenize_comment code idx word rem ni = some (t, rem2, ni2)) :
    word = ['/'] ∧
    ∃ nl, nl + 1 ≤ rem.length ∧
      t = Token.Comment
            (SourceSpan.new idx (idx + (code.take (nl + 2)).length))
            (code.take (nl + 2)) ∧
      rem2 = rem.drop (nl + 1) ∧
      ni2 = (idx + (code.take (nl + 2)).length) % 4294967296 := by
  unfold tokenize_comment at h
  by_cases hw : word = ['/']
  · rw [if_pos hw] at h
    refine ⟨hw, ?_⟩
    rcases hs1 : search_next_word rem ni with ⟨w1, r1, n1⟩
    rw [hs1] at h
    dsimp only at h
    by_cases hww : w1 = ['/']
    · rw [if_pos hww] at h
      obtain ⟨ht1, hr1, hn1⟩ := search_slash rem ni w1 r1 n1 hs1 hww
      have hrem1 : rem ≠ [] := by
        intro he
        rw [he] at ht1
        cases ht1
      have hlen1 : 1 ≤ rem.length := List.length_pos.mpr hrem1
      injection h with hpair
      injection hpair with h1 h23
      injection h23 with h2 h3
      set nl := (position (fun c => decide (c = '\n')) r1).getD r1.length with hnl
      clear_value nl
      have hnl_le : nl ≤ r1.length := by
        rw [hnl]
        cases hpos : position (fun c => decide (c = '\n')) r1 with
        | none => simp
        | some i =>
          simp only [Option.getD_some]
          exact Nat.le_of_lt (position_some_lt _ _ _ hpos)
      have hr1len : r1.length = rem.length - 1 := by
        rw [hr1, List.length_drop]
      refine ⟨nl, by omega, ?_, ?_, ?_⟩
      · rw [← h1]
      · rw [← h2, hr1, List.drop_drop]
        congr 1
        omega
      · rw [← h3]
        rfl
    · rw [if_neg hww] at h
      cases h
  · rw [if_neg hw] at h
    cases h

/-! ## Characterization of one tokenizer step -/

theorem tokenize_next_word_spec (code : List Char) (idx : Nat)
    (hne : code ≠ []) (t : Token) (rem : List Char) (ni : Nat)
    (h : tokenize_next_word code idx = (t, rem, ni))
    (ht : t ≠ Token.None) :
    ∃ w n, 0 < n ∧ w + n ≤ code.length ∧
      (∀ c ∈ code.take w, isWhitespaceChar c = true) ∧
      t.span = SourceSpan.new (idx + w) (idx + w + n) ∧
      t.lexeme = (code.drop w).take n ∧
      rem = code.drop (w + n) ∧
      ni = (idx + w + n) % 4294967296 := by
  obtain ⟨w, hwle, hwlt, htr, hws⟩ := truncate_spec code idx
  unfold tokenize_next_word at h
  rw [htr] at h
  dsimp only at h
  have hcode1 : code.drop w ≠ [] := by
    rcases hwlt with rfl | hlt
    · simpa using hne
    · exact List.length_pos.mp (by rw [List.length_drop]; omega)
  have hlen1 : (code.drop w).length = code.length - w := List.length_drop w code
  obtain ⟨n, hn0, hnle, hsearch, hdisj⟩ := search_spec (code.drop w) (idx + w) hcode1
  rw [hsearch] at h
  dsimp only at h
  cases hdoc : tokenize_documentation (code.drop w) (idx + w) ((code.drop w).take n)
      ((code.drop w).drop n) (idx + w + n) with
  | some result =>
    rcases result with ⟨t0, rem0, ni0⟩
    rw [hdoc] at h
    dsimp only at h
    injection h with h1 h23
    injection h23 with h2 h3
    obtain ⟨hwslash, nl, hnl_le, ht0, hrem0, hni0⟩ :=
      tokenize_documentation_some _ _ _ _ _ t0 rem0 ni0 hdoc
    have hn1 : n = 1 := by
      rcases hdisj with hd | hd
      · exact hd
      · exfalso
        have hmem : '/' ∈ (code.drop w).take n := by
          rw [hwslash]
          simp
        exact absurd (hd '/' hmem) (by decide)
    subst hn1
    rw [List.length_drop, List.length_drop] at hnl_le
    have hwlt2 : w < code.length := by
      rcases hwlt with rfl | hlt
      · simpa using List.length_pos.mpr hne
      · exact hlt
    have hbound : w + (nl + 3) ≤ code.length := by omega
    have htklen : ((code.drop w).take (nl + 3)).length = nl + 3 := by
      rw [List.length_take, List.length_drop]
      omega
    refine ⟨w, nl + 3, by omega, hbound, hws, ?_, ?_, ?_, ?_⟩
    · rw [← h1, ht0, htklen]
      rfl
    · rw [← h1, ht0]
      rfl
    · rw [← h2, hrem0, List.drop_drop, List.drop_drop]
      congr 1
      omega
    · rw [← h3, hni0, htklen]
  | none =>
    rw [hdoc] at h
    dsimp only at h
    cases hcom : tokenize_comment (code.drop w) (idx + w) ((code.drop w).take n)
        ((code.drop w).drop n) (idx + w + n) with
    | some result =>
      rcases result with ⟨t0, rem0, ni0⟩
      rw [hcom] at h
      dsimp only at h
      injection h with h1 h23
      injection h23 with h2 h3
      obtain ⟨hwslash, nl, hnl_le, ht0, hrem0, hni0⟩ :=
        tokenize_comment_some _ _ _ _ _ t0 rem0 ni0 hcom
      have hn1 : n = 1 := by
        rcases hdisj with hd | hd
        · exact hd
        · exfalso
          have hmem : '/' ∈ (code.drop w).take n := by
            rw [hwslash]
            simp
          exact absurd (hd '/' hmem) (by decide)
      subst hn1
      rw [List.length_drop, List.length_drop] at hnl_le
      have hwlt2 : w < code.length := by
        rcases hwlt with rfl | hlt
        · simpa using List.length_pos.mpr hne
        · exact hlt
      have hbound : w + (nl + 2) ≤ code.length := by omega
      have htklen : ((code.drop w).take (nl + 2)).length = nl + 2 := by
        rw [List.length_take, List.length_drop]
        omega
      refine ⟨w, nl + 2, by omega, hbound, hws, ?_, ?_, ?_, ?_⟩
      · rw [← h1, ht0, htklen]
        rfl
      · rw [← h1, ht0]
        rfl
      · rw [← h2, hrem0, List.drop_drop, List.drop_drop]
        congr 1
        omega
      · rw [← h3, hni0, htklen]
    | none =>
      rw [hcom] at h
      dsimp only at h
      injection h with h1 h23
      injection h23 with h2 h3
      have htklen : ((code.drop w).take n).length = n := by
        rw [List.length_take, List.length_drop]
        omega
      rcases classify_word_shape
          (SourceSpan.new (idx + w) (idx + w + ((code.drop w).take n).length))
          ((code.drop w).take n) with hnone | ⟨hisnone, hspan, hlex⟩
      · rw [hnone] at h1
        exact absurd h1.symm ht
      · have hwnle : w + n ≤ code.length := by omega
        refine ⟨w, n, hn0, hwnle, hws, ?_, ?_, ?_, ?_⟩
        · rw [← h1, hspan, htklen]
        · rw [← h1, hlex]
        · rw [← h2, List.drop_drop]
        · rw [← h3, htklen]
          rfl

/-! ## The tokenizer loop -/

theorem tokenize_loop_nil (fuel : Nat) (idx : Nat) (tokens : List Token)
    (max : Nat) : tokenize_loop fuel [] idx tokens max = .ok tokens := by
  cases fuel <;> rfl

theorem tokenize_loop_cons (fuel : Nat) (c : Char) (cs : List Char) (idx : Nat)
    (tokens : List Token) (max : Nat) :
    tokenize_loop (fuel + 1) (c :: cs) idx tokens max =
      (if (tokenize_next_word (c :: cs) idx).1.is_none then
        .error LexError.UnclassifiableWord
      else if tokens.length < max then
        tokenize_loop fuel (tokenize_next_word (c :: cs) idx).2.1
          (tokenize_next_word (c :: cs) idx).2.2
          (tokens ++ [(tokenize_next_word (c :: cs) idx).1]) max
      else .error LexError.TooManyTokens) := rfl

theorem spans_reconstruct_cons (code : List Char) (pos : Nat) (t : Token)
    (ts : List Token) :
    spans_reconstruct code pos (t :: ts) =
      (decide (pos ≤ t.span.start) && decide (t.span.start < t.span.stop)
        && decide (t.span.stop ≤ code.length)
        && ((code.drop pos).take (t.span.start - pos)).all isWhitespaceChar
        && decide (t.lexeme = (code.drop t.span.start).take
            (t.span.stop - t.span.start))
        && spans_reconstruct code t.span.stop ts) := rfl

theorem tokenize_loop_reconstruct (full : List Char)
    (hfull : full.length < 4294967296) :
    ∀ fuel pos acc max ts,
      pos ≤ full.length →
      tokenize_loop fuel (full.drop pos) pos acc max = .ok ts →
      ∃ new, ts = acc ++ new ∧ spans_reconstruct full pos new = true := by
  intro fuel
  induction fuel with
  | zero =>
    intro pos acc max ts hpos h
    cases hcode : full.drop pos with
    | nil =>
      rw [hcode, tokenize_loop_nil] at h
      injection h with hh
      refine ⟨[], by rw [← hh, List.append_nil], ?_⟩
      have hlen : pos = full.length := by
        have hc := congrArg List.length hcode
        rw [List.length_drop] at hc
        simp at hc
        omega
      simp [spans_reconstruct, hlen]
    | cons c cs =>
      rw [hcode] at h
      rw [show tokenize_loop 0 (c :: cs) pos acc max =
        .error LexError.UnclassifiableWord from rfl] at h
      cases h
  | succ fuel ih =>
    intro pos acc max ts hpos h
    cases hcode : full.drop pos with
    | nil =>
      rw [hcode, tokenize_loop_nil] at h
      injection h with hh
      refine ⟨[], by rw [← hh, List.append_nil], ?_⟩
      have hlen : pos = full.length := by
        have hc := congrArg List.length hcode
        rw [List.length_drop] at hc
        simp at hc
        omega
      simp [spans_reconstruct, hlen]
    | cons c cs =>
      rw [hcode, tokenize_loop_cons] at h
      rcases htnw : tokenize_next_word (c :: cs) pos with ⟨t, rem, ni⟩
      rw [htnw] at h
      dsimp only at h
      by_cases hnone : t.is_none = true
      · rw [if_pos hnone] at h
        cases h
      · rw [if_neg hnone] at h
        by_cases hcap : acc.length < max
        · rw [if_pos hcap] at h
          obtain ⟨w, n, hn0, hwn, hws, hspan, hlex, hrem, hni⟩ :=
            tokenize_next_word_spec (c :: cs) pos (by simp) t rem ni htnw
              ((is_none_false_iff t).mp (by simpa using hnone))
          have hcl : (c :: cs).length = full.length - pos := by
            rw [← hcode, List.length_drop]
          have hwnb : pos + (w + n) ≤ full.length := by omega
          have hremfull : rem = full.drop (pos + (w + n)) := by
            rw [hrem, ← hcode, List.drop_drop]
          have hnival : ni = pos + (w + n) := by
            rw [hni, Nat.mod_eq_of_lt (by omega)]
            omega
          rw [hremfull, hnival] at h
          obtain ⟨new1, hts, hrec⟩ :=
            ih (pos + (w + n)) (acc ++ [t]) max ts (by omega) h
          have hstart : t.span.start = pos + w := by
            rw [hspan]
            exact Nat.mod_eq_of_lt (by omega)
          have hstop : t.span.stop = pos + w + n := by
            rw [hspan]
            exact Nat.mod_eq_of_lt (by omega)
          refine ⟨t :: new1, ?_, ?_⟩
          · rw [hts]
            simp
          · rw [spans_reconstruct_cons, hstart, hstop]
            simp only [Bool.and_eq_true, decide_eq_true_eq, List.all_eq_true]
            refine ⟨⟨⟨⟨⟨?_, ?_⟩, ?_⟩, ?_⟩, ?_⟩, ?_⟩
            · omega
            · omega
            · omega
            · intro x hx
              rw [Nat.add_sub_cancel_left, hcode] at hx
              exact hws x hx
            · rw [Nat.add_sub_cancel_left, ← List.drop_drop, hcode]
              exact hlex
            · have heq : pos + w + n = pos + (w + n) := by omega
              rw [heq]
              exact hrec
        · rw [if_neg hcap] at h
          cases h

theorem tokenize_next_word_progress (code : List Char) (idx : Nat)
    (hne : code ≠ []) (t : Token) (rem : List Char) (ni : Nat)
    (h : tokenize_next_word code idx = (t, rem, ni)) (ht : t ≠ Token.None) :
    rem.length < code.length := by
  obtain ⟨w, n, hn0, hwn, _, _, _, hrem, _⟩ :=
    tokenize_next_word_spec code idx hne t rem ni h ht
  rw [hrem, List.length_drop]
  have : 0 < code.length := List.length_pos.mpr hne
  omega

theorem tokenize_loop_fuel_irrelevant :
    ∀ fuel1 fuel2 code idx tokens max, code.length ≤ fuel1 →
      code.length ≤ fuel2 →
      tokenize_loop fuel1 code idx tokens max =
        tokenize_loop fuel2 code idx tokens max := by
  intro fuel1
  induction fuel1 with
  | zero =>
    intro fuel2 code idx tokens max h1 h2
    have : code = [] := List.length_eq_zero.mp (by omega)
    subst this
    rw [tokenize_loop_nil, tokenize_loop_nil]
  | succ fuel ih =>
    intro fuel2 code idx tokens max h1 h2
    cases code with
    | nil => rw [tokenize_loop_nil, tokenize_loop_nil]
    | cons c cs =>
      cases fuel2 with
      | zero => exact absurd h2 (by simp)
      | succ fuel2 =>
        rw [tokenize_loop_cons, tokenize_loop_cons]
        rcases htnw : tokenize_next_word (c :: cs) idx with ⟨t, rem, ni⟩
        dsimp only
        by_cases hnone : t.is_none = true
        · rw [if_pos hnone, if_pos hnone]
        · rw [if_neg hnone, if_neg hnone]
          by_cases hcap : tokens.length < max
          · rw [if_pos hcap, if_pos hcap]
            have hprog := tokenize_next_word_progress (c :: cs) idx (by simp)
              t rem ni htnw ((is_none_false_iff t).mp (by simpa using hnone))
            have hlen : (c :: cs).length = cs.length + 1 := rfl
            exact ih fuel2 rem ni (tokens ++ [t]) max (by omega) (by omega)
          · rw [if_neg hcap, if_neg hcap]

/-! ## Claim theorems for the tokenizer -/

/-- C1, as stated, is false: tokenize does not succeed on every non-empty
source.  The one-character source consisting of a single space is
non-empty, yet tokenize returns the `UnclassifiableWord` error (the
whitespace-only remainder is not skipped and the space becomes an
unclassifiable word). -/
theorem tokenize_not_total_counterexample :
    tokenize_string [' '] = Except.error LexError.UnclassifiableWord := by rfl

/-- C1 (amended): for every non-empty ASCII source shorter than 2^32 on
which tokenize succeeds, the returned tokens' spans are monotonically
increasing, non-overlapping and in bounds, every gap (before a span, or
between consecutive spans) consists only of skipped whitespace, each
token's lexeme is exactly the source slice at its span, and the last span
ends at the end of the source — so concatenating the span slices with the
skipped whitespace restored reconstructs the source exactly. -/
theorem tokenize_ok_spans_reconstruct (code : List Char) (ts : List Token)
    (h0 : code ≠ []) (h1 : code.length < 4294967296)
    (h2 : ∀ c ∈ code, c.toNat < 128)
    (h : tokenize_string code = .ok ts) :
    spans_reconstruct code 0 ts = true := by
  unfold tokenize_string tokenize_string_standard at h
  rw [if_neg (by simpa using h0)] at h
  dsimp only at h
  obtain ⟨new, hts, hrec⟩ := tokenize_loop_reconstruct code h1 code.length 0 []
    _ ts (Nat.zero_le _) (by rw [List.drop_zero]; exact h)
  rw [hts]
  simpa using hrec

/-- Witness for the amended C1 at the concrete source consisting of the
characters of a two-token program with one whitespace gap. -/
theorem tokenize_ok_spans_reconstruct_witness :
    spans_reconstruct ['f','n',' ','x'] 0
      [Token.Fn ⟨0,2⟩ ['f','n'], Token.IdxVal ⟨3,4⟩ ['x']] = true :=
  tokenize_ok_spans_reconstruct ['f','n',' ','x']
    [Token.Fn ⟨0,2⟩ ['f','n'], Token.IdxVal ⟨3,4⟩ ['x']]
    (by decide) (by decide) (by decide) (by rfl)

/-- C2, as stated, is false: the unclassifiable-word error path is
reachable.  The source consisting of the single character at-sign is a
one-character delimiter word that matches no symbol-table entry and is
neither an integer nor an identifier word, so the sentinel escapes and
tokenize returns the `UnclassifiableWord` error. -/
theorem tokenize_at_sign_unclassifiable :
    tokenize_string ['@'] = Except.error LexError.UnclassifiableWord := by rfl

/-- C2 (amended): every word consisting solely of identifier-class
characters (alphanumeric or underscore) — which covers every
multi-character word the word search can produce — classifies
successfully; the sentinel only escapes for single delimiter characters
outside the symbol table. -/
theorem classify_word_identifier_class_classifies (span : SourceSpan)
    (word : List Char) (h : word.all character_is_identifier = true) :
    classify_word span word ≠ Token.None :=
  classify_word_identifier_not_none span word h

/-- Witness for the amended C2 at a concrete identifier word. -/
theorem classify_word_identifier_class_classifies_witness :
    (['m','a','i','n'].all character_is_identifier = true) ∧
    classify_word ⟨0,4⟩ ['m','a','i','n'] ≠ Token.None :=
  ⟨by decide,
   classify_word_identifier_class_classifies ⟨0,4⟩ ['m','a','i','n'] (by decide)⟩

/-- C3 (code bug): `truncate_leading_whitespace` uses
`position(..).unwrap_or(0)`, so a remainder consisting entirely of
whitespace is not skipped at all; the whitespace character is then
extracted as a word, classifies as the sentinel, and tokenize fails.  In
particular the source of characters zero-space — which the claim says
tokenizes successfully — returns the `UnclassifiableWord` error. -/
theorem truncate_whitespace_bug :
    truncate_leading_whitespace [' '] 0 = ([' '], 0) ∧
    tokenize_string ['0', ' '] = Except.error LexError.UnclassifiableWord :=
  ⟨rfl, rfl⟩

/-- C5: tokenizing the exact source characters of the text
fn-space-main-parens-space-braces yields exactly the six tokens
`Fn`, `IdxVal` (the identifier variant) of main, `LParenthesis`,
`RParenthesis`, `LBrace`, `RBrace`, in that order, with these spans. -/
theorem tokenize_fn_main_tokens :
    tokenize_string ['f','n',' ','m','a','i','n','(',')',' ','{',' ','}'] =
      Except.ok [Token.Fn ⟨0,2⟩ ['f','n'],
        Token.IdxVal ⟨3,7⟩ ['m','a','i','n'],
        Token.LParenthesis ⟨7,8⟩ ['('], Token.RParenthesis ⟨8,9⟩ [')'],
        Token.LBrace ⟨10,11⟩ ['{'], Token.RBrace ⟨12,13⟩ ['}']] := by rfl

/-- C7: a word that does not match the reserved-word table classifies as
an integer literal if and only if all of its characters are digits or
underscores and its first character is not an underscore; concretely, the
sources 0, 0-underscore, 000-000-000 and 123-456-789 (underscore
separated) tokenize as single integer literals while underscore-0
tokenizes as an identifier. -/
theorem tokenize_integer_literal_classification :
    (∀ span word, tokenize_reserved_word span word = Token.None →
      (classify_word span word = Token.IntVal span word ↔
        (word.all character_is_integer = true ∧ word.head? ≠ some '_'))) ∧
    tokenize_string ['0'] = Except.ok [Token.IntVal ⟨0,1⟩ ['0']] ∧
    tokenize_string ['0','_'] = Except.ok [Token.IntVal ⟨0,2⟩ ['0','_']] ∧
    tokenize_string ['0','0','0','_','0','0','0','_','0','0','0'] =
      Except.ok [Token.IntVal ⟨0,11⟩
        ['0','0','0','_','0','0','0','_','0','0','0']] ∧
    tokenize_string ['1','2','3','_','4','5','6','_','7','8','9'] =
      Except.ok [Token.IntVal ⟨0,11⟩
        ['1','2','3','_','4','5','6','_','7','8','9']] ∧
    tokenize_string ['_','0'] = Except.ok [Token.IdxVal ⟨0,2⟩ ['_','0']] := by
  refine ⟨?_, by rfl, by rfl, by rfl, by rfl, by rfl⟩
  intro span word hnone
  unfold classify_word
  dsimp only
  rw [hnone]
  rw [if_pos (show Token.None.is_none = true from rfl)]
  by_cases hint : word.head? ≠ some '_' ∧ word.all character_is_integer = true
  · rw [if_pos hint]
    rw [if_neg (show ¬((Token.IntVal span word).is_none = true) from
      fun hh => Bool.false_ne_true hh)]
    constructor
    · intro _
      exact ⟨hint.2, hint.1⟩
    · intro _
      rfl
  · rw [if_neg hint]
    rw [if_pos (show Token.None.is_none = true from rfl)]
    constructor
    · intro hcl
      exfalso
      by_cases hid : word.all character_is_identifier = true
      · rw [if_pos hid] at hcl
        cases hcl
      · rw [if_neg hid] at hcl
        cases hcl
    · intro hcond
      exact absurd ⟨hcond.2, hcond.1⟩ hint

/-- Witness for C7's universal part at the concrete word 0. -/
theorem tokenize_integer_literal_classification_witness :
    tokenize_reserved_word ⟨0,1⟩ ['0'] = Token.None ∧
    classify_word ⟨0,1⟩ ['0'] = Token.IntVal ⟨0,1⟩ ['0'] :=
  ⟨by rfl,
   (tokenize_integer_literal_classification.1 ⟨0,1⟩ ['0'] (by rfl)).mpr
     (by decide)⟩

/-- C8: whenever the first unconsumed character is a delimiter (outside
the alphanumeric/underscore class), the extracted word is exactly that
single character; consequently tokenizing equals-equals yields two
separate one-character `Equal` tokens. -/
theorem delimiter_single_char_words :
    (∀ c cs idx, character_is_delimiter c = true →
      search_next_word (c :: cs) idx = ([c], cs, idx + 1)) ∧
    tokenize_string ['=','='] =
      Except.ok [Token.Equal ⟨0,1⟩ ['='], Token.Equal ⟨1,2⟩ ['=']] := by
  refine ⟨?_, by rfl⟩
  intro c cs idx hc
  unfold search_next_word
  rw [show position character_is_delimiter (c :: cs) = some 0 from
    by rw [position, if_pos hc]]
  simp

/-- Witness for C8's universal part at the equals sign. -/
theorem delimiter_single_char_words_witness :
    character_is_delimiter '=' = true ∧
    search_next_word ['=','='] 0 = (['='], ['='], 0 + 1) :=
  ⟨by decide, delimiter_single_char_words.1 '=' ['='] 0 (by decide)⟩

/-- C9: tokenize on the empty source returns the `EmptyInput` error, and
parse on the empty token sequence returns the `EmptyInput` error; neither
returns a success value on empty input. -/
theorem empty_input_errors :
    tokenize_string [] = Except.error LexError.EmptyInput ∧
    parse_token [] = Except.error (ParseFailure.err ParseError.EmptyInput) :=
  ⟨rfl, rfl⟩

/-- C10: `tokenize_string_standard` clears the caller-supplied buffer
before tokenizing, so for every source and every preexisting buffer
contents it returns exactly the value of `tokenize_string` on that
source; the buffer affects capacity only, never the result. -/
theorem tokenize_string_standard_clears_buffer :
    ∀ code tokens, tokenize_string_standard code tokens =
      tokenize_string code := by
  intro code tokens
  rfl

/-! ## The parser -/

theorem into_idx_val_some (t : Token) (sp : SourceSpan) (wd : List Char)
    (h : t.into_idx_val = some (sp, wd)) : t = Token.IdxVal sp wd := by
  cases t <;> simp [Token.into_idx_val] at h
  rw [h.1, h.2]

theorem parse_identifier_none (ast : List AstNode) (tokens : List Token)
    (k1 : Nat) (h : tokens.get? k1 = none) :
    parse_identifier ast tokens k1 = .error ParseFailure.fault := by
  unfold parse_identifier
  rw [h]

theorem parse_identifier_not_idx (ast : List AstNode) (tokens : List Token)
    (k1 : Nat) (tok : Token) (hget : tokens.get? k1 = some tok)
    (hidx : tok.into_idx_val = none) :
    parse_identifier ast tokens k1 = .error ParseFailure.fault := by
  unfold parse_identifier
  rw [hget]
  dsimp only
  rw [hidx]

theorem parse_identifier_idx (ast : List AstNode) (tokens : List Token)
    (k1 : Nat) (tok : Token) (sp : SourceSpan) (wd : List Char)
    (hget : tokens.get? k1 = some tok)
    (hidx : tok.into_idx_val = some (sp, wd)) :
    parse_identifier ast tokens k1 =
      .ok (ast ++ [AstNode.Identifier ⟨sp, AstNodeType.None⟩], k1 + 1) := by
  unfold parse_identifier
  rw [hget]
  dsimp only
  rw [hidx]

theorem parse_function_step (xast : List AstNode) (tokens : List Token)
    (k : Nat) :
    parse_function xast tokens k =
      (parse_identifier ((xast ++ [AstNode.StartFunction AstNodeData.default])
          ++ [AstNode.Invisible AstNodeData.default]) tokens (k + 1)).bind
        (fun d => (parse_argument d.1 tokens d.2).bind (fun d =>
          (parse_type d.1 tokens d.2).bind (fun d =>
            (parse_block d.1 tokens d.2).bind (fun d =>
              Except.ok (d.1 ++ [AstNode.EndFunction AstNodeData.default],
                d.2))))) := rfl

theorem parse_function_fault_none (xast : List AstNode) (tokens : List Token)
    (k : Nat) (h : tokens.get? (k + 1) = none) :
    parse_function xast tokens k = .error ParseFailure.fault := by
  rw [parse_function_step, parse_identifier_none _ tokens (k + 1) h]
  rfl

theorem parse_function_fault_not_idx (xast : List AstNode)
    (tokens : List Token) (k : Nat) (tok : Token)
    (hget : tokens.get? (k + 1) = some tok) (hidx : tok.into_idx_val = none) :
    parse_function xast tokens k = .error ParseFailure.fault := by
  rw [parse_function_step,
    parse_identifier_not_idx _ tokens (k + 1) tok hget hidx]
  rfl

theorem parse_function_ok_of_idx (xast : List AstNode) (tokens : List Token)
    (k : Nat) (tok : Token) (sp : SourceSpan) (wd : List Char)
    (hget : tokens.get? (k + 1) = some tok)
    (hidx : tok.into_idx_val = some (sp, wd)) :
    parse_function xast tokens k =
      .ok (xast ++ [AstNode.StartFunction AstNodeData.default,
        AstNode.Invisible AstNodeData.default,
        AstNode.Identifier ⟨sp, AstNodeType.None⟩,
        AstNode.None, AstNode.None, AstNode.None,
        AstNode.EndFunction AstNodeData.default], k + 2) := by
  rw [parse_function_step,
    parse_identifier_idx _ tokens (k + 1) tok sp wd hget hidx]
  dsimp only [Except.bind, parse_argument, parse_type, parse_block]
  simp

theorem parse_function_ok_index (xast : List AstNode) (tokens : List Token)
    (k : Nat) (nx : List AstNode) (ni : Nat)
    (h : parse_function xast tokens k = .ok (nx, ni)) : ni = k + 2 := by
  cases hget : tokens.get? (k + 1) with
  | none =>
    rw [parse_function_fault_none xast tokens k hget] at h
    cases h
  | some tok =>
    cases hidx : tok.into_idx_val with
    | none =>
      rw [parse_function_fault_not_idx xast tokens k tok hget hidx] at h
      cases h
    | some p =>
      rcases p with ⟨sp, wd⟩
      rw [parse_function_ok_of_idx xast tokens k tok sp wd hget hidx] at h
      injection h with hp
      injection hp with h1 h2
      exact h2.symm

theorem parse_loop_stop (fuel : Nat) (tokens : List Token) (k : Nat)
    (xast ast : List AstNode) (h : ¬ (k < tokens.length)) :
    parse_loop fuel tokens k xast ast = .ok ast := by
  conv_lhs => unfold parse_loop
  rw [if_neg h]

theorem parse_loop_skip (fuel : Nat) (tokens : List Token) (k : Nat)
    (xast ast : List AstNode) (tok : Token) (hk : k < tokens.length)
    (hget : tokens.get? k = some tok)
    (hnf : ∀ s w, tok ≠ Token.Fn s w) :
    parse_loop (fuel + 1) tokens k xast ast =
      parse_loop fuel tokens (k + 1) [] ast := by
  conv_lhs => unfold parse_loop
  rw [if_pos hk, hget]
  cases tok <;> first
    | rfl
    | exact absurd rfl (hnf _ _)

theorem parse_loop_fn_error (fuel : Nat) (tokens : List Token) (k : Nat)
    (xast ast : List AstNode) (s : SourceSpan) (w : List Char)
    (e : ParseFailure) (hk : k < tokens.length)
    (hget : tokens.get? k = some (Token.Fn s w))
    (hpf : parse_function xast tokens k = .error e) :
    parse_loop (fuel + 1) tokens k xast ast = .error e := by
  conv_lhs => unfold parse_loop
  rw [if_pos hk, hget]
  dsimp only
  rw [hpf]
  rfl

theorem parse_loop_fn_ok (fuel : Nat) (tokens : List Token) (k : Nat)
    (xast ast : List AstNode) (s : SourceSpan) (w : List Char)
    (nx : List AstNode) (ni : Nat) (hk : k < tokens.length)
    (hget : tokens.get? k = some (Token.Fn s w))
    (hpf : parse_function xast tokens k = .ok (nx, ni)) :
    parse_loop (fuel + 1) tokens k xast ast =
      parse_loop fuel tokens ni [] (ast ++ nx) := by
  conv_lhs => unfold parse_loop
  rw [if_pos hk, hget]
  dsimp only
  rw [hpf]
  rfl

theorem parse_loop_fuel_irrelevant :
    ∀ fuel1 fuel2 tokens k xast ast, tokens.length - k ≤ fuel1 →
      tokens.length - k ≤ fuel2 →
      parse_loop fuel1 tokens k xast ast = parse_loop fuel2 tokens k xast ast := by
  intro fuel1
  induction fuel1 with
  | zero =>
    intro fuel2 tokens k xast ast h1 h2
    by_cases hk : k < tokens.length
    · exact absurd h1 (by omega)
    · rw [parse_loop_stop _ _ _ _ _ hk, parse_loop_stop _ _ _ _ _ hk]
  | succ fuel ih =>
    intro fuel2 tokens k xast ast h1 h2
    by_cases hk : k < tokens.length
    · cases fuel2 with
      | zero => exact absurd h2 (by omega)
      | succ fuel2 =>
        cases hget : tokens.get? k with
        | none => exact absurd (List.get?_eq_none.mp hget) (by omega)
        | some tok =>
          by_cases hfn : ∃ s w, tok = Token.Fn s w
          · obtain ⟨s, w, rfl⟩ := hfn
            cases hpf : parse_function xast tokens k with
            | error e =>
              rw [parse_loop_fn_error fuel tokens k xast ast s w e hk hget hpf,
                parse_loop_fn_error fuel2 tokens k xast ast s w e hk hget hpf]
            | ok p =>
              rcases p with ⟨nx, ni⟩
              have hni := parse_function_ok_index xast tokens k nx ni hpf
              rw [parse_loop_fn_ok fuel tokens k xast ast s w nx ni hk hget hpf,
                parse_loop_fn_ok fuel2 tokens k xast ast s w nx ni hk hget hpf]
              exact ih fuel2 tokens ni [] (ast ++ nx) (by omega) (by omega)
          · push_neg at hfn
            rw [parse_loop_skip fuel tokens k xast ast tok hk hget hfn,
              parse_loop_skip fuel2 tokens k xast ast tok hk hget hfn]
            exact ih fuel2 tokens (k + 1) [] ast (by omega) (by omega)
    · rw [parse_loop_stop _ _ _ _ _ hk, parse_loop_stop _ _ _ _ _ hk]

theorem parse_loop_fault (tokens : List Token) :
    ∀ fuel k xast ast i s w, k ≤ i →
      tokens.get? i = some (Token.Fn s w) →
      (∀ t2, tokens.get? (i + 1) = some t2 → t2.into_idx_val = none) →
      parse_loop fuel tokens k xast ast = .error ParseFailure.fault := by
  intro fuel
  induction fuel with
  | zero =>
    intro k xast ast i s w hki hfn hbad
    have hi : i < tokens.length := by
      by_contra hc
      rw [List.get?_eq_none.mpr (by omega)] at hfn
      cases hfn
    conv_lhs => unfold parse_loop
    rw [if_pos (by omega)]
  | succ fuel ih =>
    intro k xast ast i s w hki hfn hbad
    have hi : i < tokens.length := by
      by_contra hc
      rw [List.get?_eq_none.mpr (by omega)] at hfn
      cases hfn
    have hk : k < tokens.length := by omega
    cases hget : tokens.get? k with
    | none => exact absurd (List.get?_eq_none.mp hget) (by omega)
    | some tok =>
      by_cases hfncase : ∃ s2 w2, tok = Token.Fn s2 w2
      · obtain ⟨s2, w2, rfl⟩ := hfncase
        cases hget1 : tokens.get? (k + 1) with
        | none =>
          rw [parse_loop_fn_error fuel tokens k xast ast s2 w2
            ParseFailure.fault hk hget (parse_function_fault_none xast tokens k hget1)]
        | some tok1 =>
          cases hidx : tok1.into_idx_val with
          | none =>
            rw [parse_loop_fn_error fuel tokens k xast ast s2 w2
              ParseFailure.fault hk hget
              (parse_function_fault_not_idx xast tokens k tok1 hget1 hidx)]
          | some p =>
            rcases p with ⟨sp, wd⟩
            have htok1 : tok1 = Token.IdxVal sp wd := into_idx_val_some tok1 sp wd hidx
            have hik : i ≠ k := by
              intro he
              subst he
              have hb := hbad tok1 hget1
              rw [hidx] at hb
              cases hb
            have hik1 : i ≠ k + 1 := by
              intro he
              rw [he, hget1] at hfn
              injection hfn with hf
              rw [htok1] at hf
              cases hf
            have hpf := parse_function_ok_of_idx xast tokens k tok1 sp wd hget1 hidx
            rw [parse_loop_fn_ok fuel tokens k xast ast s2 w2 _ (k + 2) hk hget hpf]
            exact ih (k + 2) [] (ast ++ _) i s w (by omega) hfn hbad
      · push_neg at hfncase
        rw [parse_loop_skip fuel tokens k xast ast tok hk hget hfncase]
        have hik : i ≠ k := by
          intro he
          subst he
          rw [hget] at hfn
          injection hfn with hf
          exact hfncase s w hf
        exact ih (k + 1) [] ast i s w (by omega) hfn hbad

/-! ## Claim theorems for the parser -/

/-- C4: whenever a `Fn` token is immediately followed by a token that is
not the identifier variant (or by no token at all), parse performs the
unchecked extraction in `parse_identifier` and faults process-fatally
(the modelled `.unwrap()` panic) instead of returning a structured parse
error. -/
theorem parse_fn_bad_identifier_faults (tokens : List Token) (i : Nat)
    (s : SourceSpan) (w : List Char)
    (hfn : tokens.get? i = some (Token.Fn s w))
    (hbad : ∀ t2, tokens.get? (i + 1) = some t2 → t2.into_idx_val = none) :
    parse_token tokens = Except.error ParseFailure.fault := by
  have hi : i < tokens.length := by
    by_contra hc
    rw [List.get?_eq_none.mpr (by omega)] at hfn
    cases hfn
  have hne : ¬ (tokens.isEmpty = true) := by
    cases tokens with
    | nil => simp at hi
    | cons a as => simp
  unfold parse_token parse_token_ast
  rw [if_neg hne]
  rw [parse_loop_fault tokens tokens.length 0 [] [] i s w (Nat.zero_le i) hfn hbad]
  rfl

/-- Witness for C4: a `Fn` token followed by an `Equal` token makes parse
fault. -/
theorem parse_fn_bad_identifier_faults_witness :
    ([Token.Fn ⟨0,2⟩ ['f','n'], Token.Equal ⟨3,4⟩ ['=']].get? 0 =
      some (Token.Fn ⟨0,2⟩ ['f','n'])) ∧
    parse_token [Token.Fn ⟨0,2⟩ ['f','n'], Token.Equal ⟨3,4⟩ ['=']] =
      Except.error ParseFailure.fault :=
  ⟨rfl, parse_fn_bad_identifier_faults
    [Token.Fn ⟨0,2⟩ ['f','n'], Token.Equal ⟨3,4⟩ ['=']] 0 ⟨0,2⟩ ['f','n'] rfl
    (fun t2 ht2 => by
      injection ht2 with hh
      rw [← hh]
      rfl)⟩

/-- C6: parse on the token sequence of the fn-main example produces
exactly the nodes `StartFunction`, `Invisible`, `Identifier` carrying the
span of main, the three placeholder nodes (parameter list, return type,
body — all the `None` node), and `EndFunction`, and nothing else. -/
theorem parse_fn_main_nodes :
    tokenize_string ['f','n',' ','m','a','i','n','(',')',' ','{',' ','}'] =
      Except.ok [Token.Fn ⟨0,2⟩ ['f','n'],
        Token.IdxVal ⟨3,7⟩ ['m','a','i','n'],
        Token.LParenthesis ⟨7,8⟩ ['('], Token.RParenthesis ⟨8,9⟩ [')'],
        Token.LBrace ⟨10,11⟩ ['{'], Token.RBrace ⟨12,13⟩ ['}']] ∧
    parse_token_ast [Token.Fn ⟨0,2⟩ ['f','n'],
        Token.IdxVal ⟨3,7⟩ ['m','a','i','n'],
        Token.LParenthesis ⟨7,8⟩ ['('], Token.RParenthesis ⟨8,9⟩ [')'],
        Token.LBrace ⟨10,11⟩ ['{'], Token.RBrace ⟨12,13⟩ ['}']] =
      Except.ok [AstNode.StartFunction AstNodeData.default,
        AstNode.Invisible AstNodeData.default,
        AstNode.Identifier ⟨⟨3,7⟩, AstNodeType.None⟩,
        AstNode.None, AstNode.None, AstNode.None,
        AstNode.EndFunction AstNodeData.default] := ⟨rfl, rfl⟩

end Nx
